import Mathlib

/-!
Verification of the RobustChannel recovery layer (aio_pika robust_channel.py).

The source file src/aio_pika/robust_channel.py is embedded as a state machine:
the channel state is an explicit record, every public operation is a pure
function from state to state that also returns the Python result (an Except)
and a trace of the externally visible events it performed, in order.  External
collaborators that are not part of the source file (the base Channel
primitives, the FutureStore, the RobustExchange and RobustQueue recovery
hooks) are modelled from the spec as an environment of outcome oracles.
-/

namespace AioPika

/-- Python exceptions that appear in the recovery layer. -/
inductive PyErr where
  | connectionError (msg : String)
  | notImplementedError (msg : String)
  | brokerError (code : Nat)
deriving DecidableEq, Repr

/-- Resolution state of an asyncio future used as a closing signal. -/
inductive SigState where
  | pending
  | ok
  | failed (e : PyErr)
deriving DecidableEq, Repr

/-- A closing signal: the future held in the private closing slot of the channel. -/
structure Signal where
  id : Nat
  state : SigState
deriving DecidableEq, Repr

/-- Status of one pending broker operation tracked by the future store. -/
inductive OpStatus where
  | pending
  | resolvedOk
  | rejected (e : PyErr)
deriving DecidableEq, Repr

/-- One operation tracked by the connection level future store, tagged with the
child registry (channel) that registered it. -/
structure PendingOp where
  owner : Nat
  opId : Nat
  status : OpStatus
deriving DecidableEq, Repr

/-- Modelled from the spec: the connection level root FutureStore is a flat
collection of pending operations, each tagged with the child registry that
owns it (aio_pika.common.FutureStore is not under src). -/
abbrev FutureStore := List PendingOp

/-- Connection level state: the root future store plus the counter handing out
fresh child registry identifiers. -/
structure ConnectionState where
  store : FutureStore
  nextChild : Nat
deriving DecidableEq, Repr

/-- Modelled from the spec: FutureStore.get_child produces a registry whose
membership is disjoint from sibling children (a fresh identifier). -/
def get_child (c : ConnectionState) : Nat × ConnectionState :=
  (c.nextChild, { c with nextChild := c.nextChild + 1 })

/-- Modelled from the spec: FutureStore.reject_all resolves every still
unresolved operation of exactly this child registry with the given error. -/
def reject_all (child : Nat) (e : PyErr) (fs : FutureStore) : FutureStore :=
  fs.map fun op =>
    if op.owner = child ∧ op.status = OpStatus.pending then
      { op with status := OpStatus.rejected e }
    else op

/-- The state of a RobustChannel: the fields assigned in RobustChannel.__init__
(robust_channel.py lines 59 to 62) together with the inherited base channel
fields the source manipulates (closing signal, connection, channel number,
underlying handle, child future store).  The closingHistory field archives the
signals replaced on reconnect so the single live signal invariant can be
stated. -/
structure RState where
  closed : Bool
  exchanges : List (String × String)
  queues : List (Option String × String)
  qos : Nat × Nat
  closing : Signal
  closingHistory : List Signal
  connection : Nat
  channel_number : Nat
  channelHandle : Option Nat
  futuresChild : Nat
  nextSignalId : Nat
deriving DecidableEq, Repr

/-- Outcomes of the external collaborators: base channel primitives, broker
responses and entity recovery hooks.  These are not under src and are
modelled from the spec as oracles fixed per call site. -/
structure Env where
  openResult : Except PyErr Nat
  setQosResult : Nat → Nat → Except PyErr Unit
  declareExchangeResult : String → Except PyErr Unit
  declareQueueResult : Option String → Except PyErr String
  deleteExchangeResult : String → Except PyErr Unit
  deleteQueueResult : String → Except PyErr Unit
  exchangeHook : String → Except PyErr Unit
  queueHook : String → Except PyErr Unit
  closeSignalResult : Except PyErr Unit

/-- Externally visible events, in the order the channel performs them. -/
inductive Ev where
  | closingRejected (sigId : Nat)
  | newClosing (sigId : Nat)
  | rejectAll (child : Nat)
  | adoptConnection (conn chanNum : Nat)
  | openChannel
  | applyQos (pc ps : Nat)
  | exchangeHook (name : String)
  | queueHook (name : String)
  | channelClose
  | declareExchange (name : String)
  | declareQueue (name : Option String)
  | deleteExchange (name : String)
  | deleteQueue (name : String)
deriving DecidableEq, Repr

/-- Result of one channel operation: the Python return value or raised error,
the post state, and the trace of performed events. -/
structure OpResult (α : Type) where
  res : Except PyErr α
  state : RState
  trace : List Ev

/-- Result of on_reconnect: additionally carries the shared future store. -/
structure ReconnectResult where
  res : Except PyErr Unit
  state : RState
  store : FutureStore
  trace : List Ev

/-- Python dict assignment d[k] = v: overwrite in place if the key is present
(keeping its position), otherwise append (insertion order of dicts). -/
def dictInsert {α β : Type} [DecidableEq α] (k : α) (v : β) :
    List (α × β) → List (α × β)
  | [] => [(k, v)]
  | p :: rest => if p.1 = k then (k, v) :: rest else p :: dictInsert k v rest

/-- Python dict d.pop(k, None): drop the entry with key k if present. -/
def dictPop {α β : Type} [DecidableEq α] (k : α) :
    List (α × β) → List (α × β)
  | [] => []
  | p :: rest => if p.1 = k then rest else p :: dictPop k rest

/-- Python dict lookup d.get(k). -/
def dictGet {α β : Type} [DecidableEq α] (k : α) : List (α × β) → Option β
  | [] => none
  | p :: rest => if p.1 = k then some p.2 else dictGet k rest

/-- RobustChannel.__init__ (robust_channel.py lines 29 to 62): draws a child
future store from the connection root once at construction and initialises the
closed flag, the two recovery maps and the QoS pair. -/
def newChannel (connection channel_number : Nat) (c : ConnectionState) :
    RState × ConnectionState :=
  let pc := get_child c
  ({ closed := false, exchanges := [], queues := [], qos := (0, 0),
     closing := { id := 0, state := SigState.pending }, closingHistory := [],
     connection := connection, channel_number := channel_number,
     channelHandle := none, futuresChild := pc.1, nextSignalId := 1 }, pc.2)

/-- RobustChannel.set_qos (robust_channel.py lines 95 to 106): raises
NotImplementedError when all_channels is true; otherwise records the pair into
the stored QoS state before delegating to the base primitive and returns the
primitive outcome. -/
def set_qos (env : Env) (s : RState) (prefetch_count prefetch_size : Nat)
    (all_channels : Bool) : OpResult Unit :=
  if all_channels then
    ⟨Except.error (PyErr.notImplementedError "Not available to RobustConnection"), s, []⟩
  else
    ⟨env.setQosResult prefetch_count prefetch_size,
     { s with qos := (prefetch_count, prefetch_size) },
     [Ev.applyQos prefetch_count prefetch_size]⟩

/-- RobustChannel.initialize (robust_channel.py lines 83 to 93), named
initChannel here: opens the underlying channel through the base primitive
(modelled from the spec, base Channel is not under src), then calls set_qos
with the stored pair, propagating a failure of either step. -/
def initChannel (env : Env) (s : RState) : OpResult Nat :=
  match env.openResult with
  | Except.error e => ⟨Except.error e, s, []⟩
  | Except.ok handle =>
    let r := set_qos env { s with channelHandle := some handle } s.qos.1 s.qos.2 false
    ⟨r.res.map fun _ => handle, r.state, Ev.openChannel :: r.trace⟩

/-- Sequentially runs a recovery hook over a list of entity names: awaits each
hook to completion and stops at (and propagates) the first error. -/
def runHooks (hook : String → Except PyErr Unit) (mkEv : String → Ev) :
    List String → Except PyErr Unit × List Ev
  | [] => (Except.ok (), [])
  | n :: rest =>
    match hook n with
    | Except.error e => (Except.error e, [mkEv n])
    | Except.ok _ =>
      let r := runHooks hook mkEv rest
      (r.1, mkEv n :: r.2)

/-- RobustChannel.on_reconnect (robust_channel.py lines 64 to 81): rejects a
still pending closing signal with a connection lost error, allocates a fresh
closing signal, bulk fails the pending operations of this channel, adopts the
new connection and channel number, re-runs initialization, then replays every
remembered exchange hook and then every remembered queue hook, stopping at the
first failure.  The entity hooks (RobustExchange.on_reconnect and
RobustQueue.on_reconnect, not under src) are modelled from the spec as
environment oracles. -/
def on_reconnect (env : Env) (s : RState) (fs : FutureStore)
    (connection channel_number : Nat) : ReconnectResult :=
  let exc : PyErr := PyErr.connectionError "Auto Reconnect Error"
  let oldSig : Signal :=
    if s.closing.state = SigState.pending then
      { s.closing with state := SigState.failed exc }
    else s.closing
  let evs0 : List Ev :=
    if s.closing.state = SigState.pending then [Ev.closingRejected s.closing.id] else []
  let newSig : Signal := { id := s.nextSignalId, state := SigState.pending }
  let fs1 := reject_all s.futuresChild exc fs
  let s1 : RState :=
    { s with closing := newSig, closingHistory := oldSig :: s.closingHistory,
             nextSignalId := s.nextSignalId + 1,
             connection := connection, channel_number := channel_number }
  let evs1 := evs0 ++ [Ev.newClosing newSig.id, Ev.rejectAll s.futuresChild,
                       Ev.adoptConnection connection channel_number]
  let ri := initChannel env s1
  match ri.res with
  | Except.error e => ⟨Except.error e, ri.state, fs1, evs1 ++ ri.trace⟩
  | Except.ok _ =>
    let rex := runHooks env.exchangeHook Ev.exchangeHook (ri.state.exchanges.map Prod.snd)
    match rex.1 with
    | Except.error e => ⟨Except.error e, ri.state, fs1, evs1 ++ ri.trace ++ rex.2⟩
    | Except.ok _ =>
      let rq := runHooks env.queueHook Ev.queueHook (ri.state.queues.map Prod.snd)
      ⟨rq.1, ri.state, fs1, evs1 ++ ri.trace ++ rex.2 ++ rq.2⟩

/-- RobustChannel.close (robust_channel.py lines 108 to 117): a no-op when the
closed flag is already set; otherwise sets the flag, requests the underlying
handle to close, awaits the closing signal and drops the handle.  The
ensure-channel-is-open decorator and the write lock belong to the base channel
which is not under src; Modelled from the spec: a second close is absorbed
into a no-op by the closed flag guard, and awaiting the closing signal
resolves it with the outcome the environment provides. -/
def close (env : Env) (s : RState) : OpResult Unit :=
  if s.closed then ⟨Except.ok (), s, []⟩
  else
    match env.closeSignalResult with
    | Except.error e =>
      let sig : Signal := { id := s.closing.id, state := SigState.failed e }
      ⟨Except.error e, { s with closed := true, closing := sig }, [Ev.channelClose]⟩
    | Except.ok _ =>
      let sig : Signal := { id := s.closing.id, state := SigState.ok }
      ⟨Except.ok (),
       { s with closed := true, closing := sig, channelHandle := none },
       [Ev.channelClose]⟩

/-- RobustChannel.declare_exchange (robust_channel.py lines 119 to 135):
delegates to the base primitive (modelled from the spec: on success the base
call returns an exchange object carrying the requested name), then registers
the exchange into the recovery map under its name iff internal is false and
robust is true. -/
def declare_exchange (env : Env) (s : RState) (name : String)
    (internal robust : Bool) : OpResult String :=
  match env.declareExchangeResult name with
  | Except.error e => ⟨Except.error e, s, [Ev.declareExchange name]⟩
  | Except.ok _ =>
    let s1 := if !internal && robust then
        { s with exchanges := dictInsert name name s.exchanges }
      else s
    ⟨Except.ok name, s1, [Ev.declareExchange name]⟩

/-- RobustChannel.exchange_delete (robust_channel.py lines 137 to 146):
delegates to the base primitive, then unconditionally pops the name from the
exchange recovery map. -/
def exchange_delete (env : Env) (s : RState) (exchange_name : String) :
    OpResult Unit :=
  match env.deleteExchangeResult exchange_name with
  | Except.error e => ⟨Except.error e, s, [Ev.deleteExchange exchange_name]⟩
  | Except.ok _ =>
    ⟨Except.ok (), { s with exchanges := dictPop exchange_name s.exchanges },
     [Ev.deleteExchange exchange_name]⟩

/-- RobustChannel.declare_queue (robust_channel.py lines 148 to 163):
delegates to the base primitive (modelled from the spec: on success the base
call returns a queue whose resulting name may be server generated when the
caller passed none), then, iff robust is true, stores the queue into the
recovery map under the caller passed name argument — exactly as the source
line 161 does with self underscore queues indexed by name. -/
def declare_queue (env : Env) (s : RState) (name : Option String)
    (robust : Bool) : OpResult String :=
  match env.declareQueueResult name with
  | Except.error e => ⟨Except.error e, s, [Ev.declareQueue name]⟩
  | Except.ok qname =>
    let s1 := if robust then
        { s with queues := dictInsert name qname s.queues }
      else s
    ⟨Except.ok qname, s1, [Ev.declareQueue name]⟩

/-- RobustChannel.queue_delete (robust_channel.py lines 165 to 174):
delegates to the base primitive, then unconditionally pops the given queue
name (a string key) from the queue recovery map. -/
def queue_delete (env : Env) (s : RState) (queue_name : String) :
    OpResult Unit :=
  match env.deleteQueueResult queue_name with
  | Except.error e => ⟨Except.error e, s, [Ev.deleteQueue queue_name]⟩
  | Except.ok _ =>
    ⟨Except.ok (), { s with queues := dictPop (some queue_name) s.queues },
     [Ev.deleteQueue queue_name]⟩

/-! Auxiliary definitions used to state and decompose the properties. -/

/-- The connection lost error on_reconnect raises into stale state. -/
def reconnectExc : PyErr := PyErr.connectionError "Auto Reconnect Error"

/-- The closing signal as archived by on_reconnect: rejected with the
connection lost error when it was still pending, untouched otherwise. -/
def archivedSig (s : RState) : Signal :=
  if s.closing.state = SigState.pending then
    { id := s.closing.id, state := SigState.failed reconnectExc }
  else s.closing

/-- The channel state right after the swap steps of on_reconnect: fresh
closing signal, archived old signal, adopted connection and channel number. -/
def reconnectAdopt (s : RState) (connection channel_number : Nat) : RState :=
  { s with closing := { id := s.nextSignalId, state := SigState.pending },
           closingHistory := archivedSig s :: s.closingHistory,
           nextSignalId := s.nextSignalId + 1,
           connection := connection, channel_number := channel_number }

/-- The events of the swap steps of on_reconnect, before initialization. -/
def preEvs (s : RState) (connection channel_number : Nat) : List Ev :=
  (if s.closing.state = SigState.pending then [Ev.closingRejected s.closing.id] else []) ++
  [Ev.newClosing s.nextSignalId, Ev.rejectAll s.futuresChild,
   Ev.adoptConnection connection channel_number]

/-- Values of the exchange recovery map, in map order. -/
def exNames (s : RState) : List String := s.exchanges.map Prod.snd

/-- Values of the queue recovery map, in map order. -/
def qNames (s : RState) : List String := s.queues.map Prod.snd

/-- A caller issued channel operation, for quantifying over sequences of
intervening operations. -/
inductive ChanOp where
  | reconnect (connection channel_number : Nat)
  | setQos (prefetch_count prefetch_size : Nat) (all_channels : Bool)
  | declareExchange (name : String) (internal robust : Bool)
  | exchangeDelete (name : String)
  | declareQueue (name : Option String) (robust : Bool)
  | queueDelete (name : String)
  | closeOp
  | initOp

/-- Applies one operation to the channel state and the shared future store,
keeping whatever state results (also on a raised error). -/
def stepOp (env : Env) (op : ChanOp) (s : RState) (fs : FutureStore) :
    RState × FutureStore :=
  match op with
  | ChanOp.reconnect c n => let r := on_reconnect env s fs c n; (r.state, r.store)
  | ChanOp.setQos pc ps ac => ((set_qos env s pc ps ac).state, fs)
  | ChanOp.declareExchange n i r => ((declare_exchange env s n i r).state, fs)
  | ChanOp.exchangeDelete n => ((exchange_delete env s n).state, fs)
  | ChanOp.declareQueue n r => ((declare_queue env s n r).state, fs)
  | ChanOp.queueDelete n => ((queue_delete env s n).state, fs)
  | ChanOp.closeOp => ((close env s).state, fs)
  | ChanOp.initOp => ((initChannel env s).state, fs)

/-- Runs a sequence of operations, each with its own environment outcomes. -/
def runOps : List (Env × ChanOp) → RState × FutureStore → RState × FutureStore
  | [], p => p
  | eo :: rest, p => runOps rest (stepOp eo.1 eo.2 p.1 p.2)

/-- Runs a sequence of set_qos calls with all_channels false, keeping the
state each call leaves behind. -/
def setQosSeq (env : Env) (s : RState) : List (Nat × Nat) → RState
  | [] => s
  | p :: rest => setQosSeq env (set_qos env s p.1 p.2 false).state rest

/-- Initialization events: channel open and QoS reapplication. -/
def evIsInit : Ev → Bool
  | Ev.openChannel => true
  | Ev.applyQos _ _ => true
  | _ => false

/-- Exchange recovery hook events. -/
def evIsExHook : Ev → Bool
  | Ev.exchangeHook _ => true
  | _ => false

/-- Queue recovery hook events. -/
def evIsQHook : Ev → Bool
  | Ev.queueHook _ => true
  | _ => false

/-- Any recovery hook event. -/
def evIsHook (e : Ev) : Bool := evIsExHook e || evIsQHook e

/-- Neutral default event for safe indexing into traces. -/
def evDefault : Ev := Ev.adoptConnection 0 0

/-- The exchange name carried by an exchange hook event. -/
def exHookName : Ev → Option String
  | Ev.exchangeHook n => some n
  | _ => none

/-- The single live signal invariant: every archived closing signal is
resolved, so the current signal is the only one that may be pending. -/
def liveInv (s : RState) : Prop :=
  ∀ sig ∈ s.closingHistory, sig.state ≠ SigState.pending

/-- The replay order of a reconnect: all remembered exchanges, then all
remembered queues. -/
def replayOrder (s : RState) : List (Sum String String) :=
  (exNames s).map Sum.inl ++ (qNames s).map Sum.inr

/-- The recovery hook outcome of one entity in the replay order. -/
def hookOf (env : Env) : Sum String String → Except PyErr Unit
  | Sum.inl n => env.exchangeHook n
  | Sum.inr n => env.queueHook n

/-- The trace event of one entity recovery hook in the replay order. -/
def hookEv : Sum String String → Ev
  | Sum.inl n => Ev.exchangeHook n
  | Sum.inr n => Ev.queueHook n

/-- Default entity for safe indexing into the replay order. -/
def entDefault : Sum String String := Sum.inl ""

/-- Environment where every external call succeeds and the broker assigns the
generated name amq.gen-1 to an anonymous queue declaration. -/
def envGen : Env where
  openResult := Except.ok 1
  setQosResult := fun _ _ => Except.ok ()
  declareExchangeResult := fun _ => Except.ok ()
  declareQueueResult := fun name =>
    match name with
    | none => Except.ok "amq.gen-1"
    | some q => Except.ok q
  deleteExchangeResult := fun _ => Except.ok ()
  deleteQueueResult := fun _ => Except.ok ()
  exchangeHook := fun _ => Except.ok ()
  queueHook := fun _ => Except.ok ()
  closeSignalResult := Except.ok ()

/-- Environment where every queue recovery hook fails. -/
def envQFail : Env :=
  { envGen with queueHook := fun _ => Except.error (PyErr.brokerError 7) }

/-- A freshly constructed channel on a fresh connection. -/
def chan0 : RState := (newChannel 0 0 { store := [], nextChild := 0 }).1

/-- A channel remembering one exchange and one queue. -/
def sDemo : RState :=
  { chan0 with exchanges := [("ex", "ex")], queues := [(some "q", "q")] }

/-- Dummy pending operation for safe indexing into future stores. -/
def opDummy : PendingOp := { owner := 0, opId := 0, status := OpStatus.resolvedOk }

/-- A store with one pending operation of child 0 and one of child 1. -/
def fsDemo : FutureStore :=
  [{ owner := 0, opId := 10, status := OpStatus.pending },
   { owner := 1, opId := 11, status := OpStatus.pending }]

/-! Decomposition lemmas for the operations. -/

lemma set_qos_false (env : Env) (s : RState) (pc ps : Nat) :
    set_qos env s pc ps false =
      ⟨env.setQosResult pc ps, { s with qos := (pc, ps) }, [Ev.applyQos pc ps]⟩ := rfl

lemma initChannel_open_error (env : Env) (s : RState) (e : PyErr)
    (h : env.openResult = Except.error e) :
    initChannel env s = ⟨Except.error e, s, []⟩ := by
  simp [initChannel, h]

lemma initChannel_open_ok (env : Env) (s : RState) (h0 : Nat)
    (h : env.openResult = Except.ok h0) :
    initChannel env s =
      ⟨(env.setQosResult s.qos.1 s.qos.2).map fun _ => h0,
       { s with channelHandle := some h0 },
       [Ev.openChannel, Ev.applyQos s.qos.1 s.qos.2]⟩ := by
  simp [initChannel, h, set_qos]

lemma on_reconnect_open_error (env : Env) (s : RState) (fs : FutureStore)
    (c n : Nat) (e : PyErr) (h : env.openResult = Except.error e) :
    on_reconnect env s fs c n =
      ⟨Except.error e, reconnectAdopt s c n,
       reject_all s.futuresChild reconnectExc fs, preEvs s c n⟩ := by
  simp [on_reconnect, initChannel, h, preEvs, reconnectAdopt, archivedSig, reconnectExc]

lemma on_reconnect_qos_error (env : Env) (s : RState) (fs : FutureStore)
    (c n : Nat) (h0 : Nat) (e : PyErr)
    (hopen : env.openResult = Except.ok h0)
    (hq : env.setQosResult s.qos.1 s.qos.2 = Except.error e) :
    on_reconnect env s fs c n =
      ⟨Except.error e, { reconnectAdopt s c n with channelHandle := some h0 },
       reject_all s.futuresChild reconnectExc fs,
       preEvs s c n ++ [Ev.openChannel, Ev.applyQos s.qos.1 s.qos.2]⟩ := by
  simp [on_reconnect, initChannel, set_qos, Except.map, hopen, hq, preEvs,
    reconnectAdopt, archivedSig, reconnectExc]

lemma on_reconnect_ex_error (env : Env) (s : RState) (fs : FutureStore)
    (c n : Nat) (h0 : Nat) (e : PyErr)
    (hopen : env.openResult = Except.ok h0)
    (hq : env.setQosResult s.qos.1 s.qos.2 = Except.ok ())
    (hex : (runHooks env.exchangeHook Ev.exchangeHook (exNames s)).1 = Except.error e) :
    on_reconnect env s fs c n =
      ⟨Except.error e, { reconnectAdopt s c n with channelHandle := some h0 },
       reject_all s.futuresChild reconnectExc fs,
       preEvs s c n ++ [Ev.openChannel, Ev.applyQos s.qos.1 s.qos.2] ++
         (runHooks env.exchangeHook Ev.exchangeHook (exNames s)).2⟩ := by
  simp only [exNames] at hex
  simp [on_reconnect, initChannel, set_qos, Except.map, hopen, hq, hex, preEvs,
    reconnectAdopt, archivedSig, reconnectExc, exNames]

lemma on_reconnect_ex_ok (env : Env) (s : RState) (fs : FutureStore)
    (c n : Nat) (h0 : Nat)
    (hopen : env.openResult = Except.ok h0)
    (hq : env.setQosResult s.qos.1 s.qos.2 = Except.ok ())
    (hex : (runHooks env.exchangeHook Ev.exchangeHook (exNames s)).1 = Except.ok ()) :
    on_reconnect env s fs c n =
      ⟨(runHooks env.queueHook Ev.queueHook (qNames s)).1,
       { reconnectAdopt s c n with channelHandle := some h0 },
       reject_all s.futuresChild reconnectExc fs,
       preEvs s c n ++ [Ev.openChannel, Ev.applyQos s.qos.1 s.qos.2] ++
         (runHooks env.exchangeHook Ev.exchangeHook (exNames s)).2 ++
         (runHooks env.queueHook Ev.queueHook (qNames s)).2⟩ := by
  simp only [exNames] at hex
  simp [on_reconnect, initChannel, set_qos, Except.map, hopen, hq, hex, preEvs,
    reconnectAdopt, archivedSig, reconnectExc, exNames, qNames]

lemma on_reconnect_store (env : Env) (s : RState) (fs : FutureStore) (c n : Nat) :
    (on_reconnect env s fs c n).store = reject_all s.futuresChild reconnectExc fs := by
  cases hopen : env.openResult with
  | error e => rw [on_reconnect_open_error env s fs c n e hopen]
  | ok h0 =>
    cases hq : env.setQosResult s.qos.1 s.qos.2 with
    | error e => rw [on_reconnect_qos_error env s fs c n h0 e hopen hq]
    | ok u =>
      cases u
      cases hex : (runHooks env.exchangeHook Ev.exchangeHook (exNames s)).1 with
      | error e => rw [on_reconnect_ex_error env s fs c n h0 e hopen hq hex]
      | ok v =>
        cases v
        rw [on_reconnect_ex_ok env s fs c n h0 hopen hq hex]

lemma on_reconnect_state (env : Env) (s : RState) (fs : FutureStore) (c n : Nat) :
    (on_reconnect env s fs c n).state =
      match env.openResult with
      | Except.error _ => reconnectAdopt s c n
      | Except.ok h0 => { reconnectAdopt s c n with channelHandle := some h0 } := by
  cases hopen : env.openResult with
  | error e => rw [on_reconnect_open_error env s fs c n e hopen]
  | ok h0 =>
    cases hq : env.setQosResult s.qos.1 s.qos.2 with
    | error e => rw [on_reconnect_qos_error env s fs c n h0 e hopen hq]
    | ok u =>
      cases u
      cases hex : (runHooks env.exchangeHook Ev.exchangeHook (exNames s)).1 with
      | error e => rw [on_reconnect_ex_error env s fs c n h0 e hopen hq hex]
      | ok v =>
        cases v
        rw [on_reconnect_ex_ok env s fs c n h0 hopen hq hex]

lemma on_reconnect_closed (env : Env) (s : RState) (fs : FutureStore) (c n : Nat) :
    (on_reconnect env s fs c n).state.closed = s.closed := by
  rw [on_reconnect_state]
  cases env.openResult <;> rfl

lemma set_qos_closed (env : Env) (s : RState) (pc ps : Nat) (ac : Bool) :
    (set_qos env s pc ps ac).state.closed = s.closed := by
  cases ac <;> rfl

lemma initChannel_closed (env : Env) (s : RState) :
    (initChannel env s).state.closed = s.closed := by
  cases hopen : env.openResult with
  | error e => rw [initChannel_open_error env s e hopen]
  | ok h0 => rw [initChannel_open_ok env s h0 hopen]

lemma close_closed_true (env : Env) (s : RState) :
    (close env s).state.closed = true := by
  by_cases hc : s.closed
  · simp [close, hc]
  · cases hr : env.closeSignalResult <;> simp [close, hc, hr]

lemma declare_exchange_closed (env : Env) (s : RState) (name : String)
    (internal robust : Bool) :
    (declare_exchange env s name internal robust).state.closed = s.closed := by
  cases h : env.declareExchangeResult name with
  | error e => simp [declare_exchange, h]
  | ok u => cases u; by_cases hr : !internal && robust <;> simp [declare_exchange, h, hr]

lemma exchange_delete_closed (env : Env) (s : RState) (name : String) :
    (exchange_delete env s name).state.closed = s.closed := by
  cases h : env.deleteExchangeResult name with
  | error e => simp [exchange_delete, h]
  | ok u => cases u; simp [exchange_delete, h]

lemma declare_queue_closed (env : Env) (s : RState) (name : Option String)
    (robust : Bool) :
    (declare_queue env s name robust).state.closed = s.closed := by
  cases h : env.declareQueueResult name with
  | error e => simp [declare_queue, h]
  | ok q => by_cases hr : robust <;> simp [declare_queue, h, hr]

lemma queue_delete_closed (env : Env) (s : RState) (name : String) :
    (queue_delete env s name).state.closed = s.closed := by
  cases h : env.deleteQueueResult name with
  | error e => simp [queue_delete, h]
  | ok u => cases u; simp [queue_delete, h]

lemma stepOp_closed (env : Env) (op : ChanOp) (s : RState) (fs : FutureStore)
    (h : s.closed = true) : ((stepOp env op s fs).1).closed = true := by
  cases op with
  | reconnect c n => simpa [stepOp, on_reconnect_closed] using h
  | setQos pc ps ac => simpa [stepOp, set_qos_closed] using h
  | declareExchange n i r => simpa [stepOp, declare_exchange_closed] using h
  | exchangeDelete n => simpa [stepOp, exchange_delete_closed] using h
  | declareQueue n r => simpa [stepOp, declare_queue_closed] using h
  | queueDelete n => simpa [stepOp, queue_delete_closed] using h
  | closeOp => simpa [stepOp] using close_closed_true env s
  | initOp => simpa [stepOp, initChannel_closed] using h

lemma runOps_closed (ops : List (Env × ChanOp)) (p : RState × FutureStore)
    (h : p.1.closed = true) : ((runOps ops p).1).closed = true := by
  induction ops generalizing p with
  | nil => simpa [runOps] using h
  | cons eo rest ih =>
    exact ih _ (stepOp_closed eo.1 eo.2 p.1 p.2 h)

lemma close_of_closed (env : Env) (s : RState) (h : s.closed = true) :
    close env s = ⟨Except.ok (), s, []⟩ := by
  simp [close, h]

lemma runHooks_ok (hook : String → Except PyErr Unit) (mkEv : String → Ev)
    (l : List String) (h : (runHooks hook mkEv l).1 = Except.ok ()) :
    (runHooks hook mkEv l).2 = l.map mkEv ∧ ∀ x ∈ l, hook x = Except.ok () := by
  induction l with
  | nil => simp [runHooks]
  | cons n rest ih =>
    cases hh : hook n with
    | error e => simp [runHooks, hh] at h
    | ok u =>
      cases u
      have h2 : (runHooks hook mkEv rest).1 = Except.ok () := by
        simpa [runHooks, hh] using h
      rcases ih h2 with ⟨ht, hall⟩
      refine ⟨by simp [runHooks, hh, ht], ?_⟩
      intro x hx
      rcases List.mem_cons.mp hx with rfl | hx2
      · exact hh
      · exact hall x hx2

lemma runHooks_error (hook : String → Except PyErr Unit) (mkEv : String → Ev)
    (l : List String) (e : PyErr) (h : (runHooks hook mkEv l).1 = Except.error e) :
    ∃ k, k < l.length ∧ (runHooks hook mkEv l).2 = (l.take (k + 1)).map mkEv ∧
      hook (l.getD k "") = Except.error e ∧
      ∀ i, i < k → hook (l.getD i "") = Except.ok () := by
  induction l with
  | nil => simp [runHooks] at h
  | cons n rest ih =>
    cases hh : hook n with
    | error e2 =>
      have he : e2 = e := by simpa [runHooks, hh] using h
      subst he
      exact ⟨0, by simp, by simp [runHooks, hh], by simpa using hh, by omega⟩
    | ok u =>
      cases u
      have h2 : (runHooks hook mkEv rest).1 = Except.error e := by
        simpa [runHooks, hh] using h
      rcases ih h2 with ⟨k, hk, ht, hfail, hbefore⟩
      refine ⟨k + 1, by simpa using hk, by simp [runHooks, hh, ht], by simpa using hfail, ?_⟩
      intro i hi
      cases i with
      | zero => simpa using hh
      | succ j => simpa using hbefore j (by omega)

lemma runHooks_trace_mem (hook : String → Except PyErr Unit) (mkEv : String → Ev) :
    ∀ l x, x ∈ (runHooks hook mkEv l).2 → ∃ m, x = mkEv m := by
  intro l
  induction l with
  | nil => intro x hx; simp [runHooks] at hx
  | cons nm rest ih =>
    intro x hx
    cases hh : hook nm with
    | error e =>
      simp [runHooks, hh] at hx
      exact ⟨nm, hx⟩
    | ok u =>
      cases u
      simp [runHooks, hh] at hx
      rcases hx with rfl | hx2
      · exact ⟨nm, rfl⟩
      · exact ih x hx2

lemma getD_false_of_all {P : Ev → Bool} {l : List Ev} {d : Ev}
    (hl : ∀ x ∈ l, P x = false) (hd : P d = false) (n : Nat) :
    P (l.getD n d) = false := by
  rcases Nat.lt_or_ge n l.length with h | h
  · rw [List.getD_eq_getElem l d h]
    exact hl _ (List.getElem_mem h)
  · rw [List.getD_eq_default l d h]
    exact hd

lemma split_index_lt (P Q : Ev → Bool) (xs ys : List Ev) (d : Ev)
    (hPys : ∀ x ∈ ys, P x = false) (hPd : P d = false)
    (hQxs : ∀ x ∈ xs, Q x = false) (hQd : Q d = false)
    (i j : Nat) (hi : P ((xs ++ ys).getD i d) = true)
    (hj : Q ((xs ++ ys).getD j d) = true) : i < j := by
  have hilt : i < xs.length := by
    by_contra hge
    push_neg at hge
    rw [List.getD_append_right xs ys d i hge, getD_false_of_all hPys hPd] at hi
    exact Bool.false_ne_true hi
  have hjge : xs.length ≤ j := by
    by_contra hlt
    push_neg at hlt
    rw [List.getD_append xs ys d j hlt, getD_false_of_all hQxs hQd] at hj
    exact Bool.false_ne_true hj
  omega

lemma mem_preEvs (s : RState) (c n : Nat) (x : Ev) (hx : x ∈ preEvs s c n) :
    evIsInit x = false ∧ evIsHook x = false ∧ exHookName x = none := by
  by_cases h : s.closing.state = SigState.pending
  · simp [preEvs, h] at hx
    rcases hx with rfl | rfl | rfl | rfl <;> exact ⟨rfl, rfl, rfl⟩
  · simp [preEvs, h] at hx
    rcases hx with rfl | rfl | rfl <;> exact ⟨rfl, rfl, rfl⟩

lemma setQosSeq_qos (env : Env) (s : RState) (pairs : List (Nat × Nat)) :
    (setQosSeq env s pairs).qos = pairs.getLastD s.qos := by
  induction pairs generalizing s with
  | nil => simp [setQosSeq]
  | cons p rest ih =>
    rw [setQosSeq, ih]
    have hst : (set_qos env s p.1 p.2 false).state.qos = (p.1, p.2) := rfl
    rw [hst, List.getLastD_cons]

lemma on_reconnect_trace_success (env : Env) (s : RState) (fs : FutureStore)
    (c n : Nat) (h0 : Nat) (hopen : env.openResult = Except.ok h0) :
    ∃ hookEvs : List Ev,
      (∀ x ∈ hookEvs, evIsInit x = false) ∧
      (on_reconnect env s fs c n).trace =
        preEvs s c n ++ [Ev.openChannel, Ev.applyQos s.qos.1 s.qos.2] ++ hookEvs := by
  cases hq : env.setQosResult s.qos.1 s.qos.2 with
  | error e =>
    refine ⟨[], by simp, ?_⟩
    rw [on_reconnect_qos_error env s fs c n h0 e hopen hq]
    simp
  | ok u =>
    cases u
    cases hex : (runHooks env.exchangeHook Ev.exchangeHook (exNames s)).1 with
    | error e =>
      refine ⟨(runHooks env.exchangeHook Ev.exchangeHook (exNames s)).2, ?_, ?_⟩
      · intro x hx
        rcases runHooks_trace_mem env.exchangeHook Ev.exchangeHook _ x hx with ⟨m, rfl⟩
        rfl
      · rw [on_reconnect_ex_error env s fs c n h0 e hopen hq hex]
    | ok v =>
      cases v
      refine ⟨(runHooks env.exchangeHook Ev.exchangeHook (exNames s)).2 ++
        (runHooks env.queueHook Ev.queueHook (qNames s)).2, ?_, ?_⟩
      · intro x hx
        rcases List.mem_append.mp hx with hx2 | hx2
        · rcases runHooks_trace_mem env.exchangeHook Ev.exchangeHook _ x hx2 with ⟨m, rfl⟩
          rfl
        · rcases runHooks_trace_mem env.queueHook Ev.queueHook _ x hx2 with ⟨m, rfl⟩
          rfl
      · rw [on_reconnect_ex_ok env s fs c n h0 hopen hq hex]
        simp

lemma on_reconnect_applyQos_mem (env : Env) (s : RState) (fs : FutureStore)
    (c n pc ps : Nat) :
    Ev.applyQos pc ps ∈ (on_reconnect env s fs c n).trace ↔
      ((pc, ps) = s.qos ∧ ∃ h0, env.openResult = Except.ok h0) := by
  cases hopen : env.openResult with
  | error e =>
    rw [on_reconnect_open_error env s fs c n e hopen]
    constructor
    · intro hx
      rcases mem_preEvs s c n _ hx with ⟨hinit, _, _⟩
      simp [evIsInit] at hinit
    · rintro ⟨-, h0, hh⟩
      cases hh
  | ok h0 =>
    rcases on_reconnect_trace_success env s fs c n h0 hopen with ⟨hookEvs, hno, htr⟩
    rw [htr]
    constructor
    · intro hx
      rcases List.mem_append.mp hx with hx2 | hx2
      · rcases List.mem_append.mp hx2 with hx3 | hx3
        · rcases mem_preEvs s c n _ hx3 with ⟨hinit, _, _⟩
          simp [evIsInit] at hinit
        · have h2 : pc = s.qos.1 ∧ ps = s.qos.2 := by simpa using hx3
          refine ⟨?_, h0, rfl⟩
          rw [h2.1, h2.2]
      · have := hno _ hx2
        simp [evIsInit] at this
    · rintro ⟨hpair, -⟩
      have : Ev.applyQos pc ps = Ev.applyQos s.qos.1 s.qos.2 := by
        rw [show pc = s.qos.1 from congrArg Prod.fst hpair,
          show ps = s.qos.2 from congrArg Prod.snd hpair]
      rw [this]
      simp

lemma no_index_true {P : Ev → Bool} {l : List Ev} {d : Ev}
    (hl : ∀ x ∈ l, P x = false) (hd : P d = false) {n : Nat}
    (h : P (l.getD n d) = true) : False := by
  rw [getD_false_of_all hl hd n] at h
  exact Bool.false_ne_true h

lemma evIsExHook_false_of_hook {x : Ev} (h : evIsHook x = false) :
    evIsExHook x = false := by
  simp [evIsHook] at h
  exact h.1

lemma evIsQHook_false_of_hook {x : Ev} (h : evIsHook x = false) :
    evIsQHook x = false := by
  simp [evIsHook] at h
  exact h.2

lemma midNoHook (a b : Nat) :
    ∀ x ∈ [Ev.openChannel, Ev.applyQos a b], evIsHook x = false := by
  intro x hx
  simp at hx
  rcases hx with rfl | rfl <;> rfl

lemma midNoEx (a b : Nat) :
    ∀ x ∈ [Ev.openChannel, Ev.applyQos a b], exHookName x = none := by
  intro x hx
  simp at hx
  rcases hx with rfl | rfl <;> rfl

lemma filterMap_exHookName_map (l : List String) :
    (l.map Ev.exchangeHook).filterMap exHookName = l := by
  induction l with
  | nil => rfl
  | cons a t ih => simp [exHookName, ih]

lemma filterMap_none {l : List Ev} (h : ∀ x ∈ l, exHookName x = none) :
    l.filterMap exHookName = [] := by
  induction l with
  | nil => rfl
  | cons a t ih =>
    rw [List.filterMap_cons, h a (by simp)]
    exact ih fun x hx => h x (by simp [hx])

/-! Claim theorems. -/

/-- C4: every call to set_qos with all_channels true fails with the
unsupported operation error, does not delegate to the underlying primitive
(its trace is empty), and leaves the whole state — in particular the stored
QoS pair — exactly as it was before the call. -/
theorem set_qos_all_channels_rejected (env : Env) (s : RState)
    (prefetch_count prefetch_size : Nat) :
    set_qos env s prefetch_count prefetch_size true =
      ⟨Except.error (PyErr.notImplementedError "Not available to RobustConnection"),
       s, []⟩ :=
  rfl

/-- C1, failing input: declaring an anonymous queue (caller passed no name,
so the broker assigns the resulting name amq.gen-1) with the recoverable flag
true succeeds, but the queue is stored in the recovery map under the caller
passed key none, not under its resulting name — looking the map up by the
resulting name fails, contradicting the claim that the queue is keyed by its
resulting name when the name is server generated. -/
theorem declare_queue_keyed_by_argument_name :
    (declare_queue envGen chan0 none true).res = Except.ok "amq.gen-1" ∧
    (declare_queue envGen chan0 none true).state.queues = [(none, "amq.gen-1")] ∧
    dictGet (some "amq.gen-1") (declare_queue envGen chan0 none true).state.queues =
      none ∧
    dictGet (none : Option String) (declare_queue envGen chan0 none true).state.queues =
      some "amq.gen-1" :=
  ⟨rfl, rfl, rfl, rfl⟩

/-- C5, failing input: after declaring an anonymous queue (resulting name
amq.gen-1, recoverable) and then successfully deleting it by its resulting
name, the queue is still present in the recovery map (under key none), and a
subsequent on_reconnect still invokes the recovery hook of the deleted queue —
contradicting the claim that a successful delete prevents any later recovery
hook for the deleted entity. -/
theorem queue_delete_misses_anonymous_queue :
    (queue_delete envGen (declare_queue envGen chan0 none true).state "amq.gen-1").res =
      Except.ok () ∧
    (queue_delete envGen (declare_queue envGen chan0 none true).state
        "amq.gen-1").state.queues = [(none, "amq.gen-1")] ∧
    Ev.queueHook "amq.gen-1" ∈
      (on_reconnect envGen
        (queue_delete envGen (declare_queue envGen chan0 none true).state "amq.gen-1").state
        [] 2 3).trace :=
  ⟨rfl, rfl, by decide⟩

/-- C2: after a first close has completed, the closed flag is set and stays
set across every sequence of intervening operations (each with arbitrary
environment outcomes), so a second close is a no-op: it returns normally,
issues no underlying close request (empty trace) and leaves the state
unchanged. -/
theorem close_idempotent (env1 env2 : Env) (ops : List (Env × ChanOp))
    (s : RState) (fs : FutureStore) :
    close env2 (runOps ops ((close env1 s).state, fs)).1 =
      ⟨Except.ok (), (runOps ops ((close env1 s).state, fs)).1, []⟩ := by
  have h2 : ((runOps ops ((close env1 s).state, fs)).1).closed = true :=
    runOps_closed ops ((close env1 s).state, fs) (close_closed_true env1 s)
  exact close_of_closed env2 _ h2

/-- C3: starting from a freshly constructed channel, after any sequence of
successful set_qos calls with all_channels false, the stored QoS pair equals
the last requested pair (the default pair zero zero when no call was made);
on a reconnect, the pair applied during re-initialization is exactly that
pair (it is applied whenever the open succeeds, and no other pair is ever
applied); and every set_qos call with all_channels false records its pair
into the stored QoS state regardless of the underlying outcome, so the last
requested value is replayed even when the underlying call failed. -/
theorem qos_persistence (env : Env) (c0 : ConnectionState)
    (connection channel_number c2 n2 : Nat) (pairs : List (Nat × Nat))
    (fs : FutureStore)
    (_hsucc : ∀ p ∈ pairs, env.setQosResult p.1 p.2 = Except.ok ()) :
    (setQosSeq env (newChannel connection channel_number c0).1 pairs).qos =
      pairs.getLastD (0, 0) ∧
    (∀ h0, env.openResult = Except.ok h0 →
      Ev.applyQos (pairs.getLastD (0, 0)).1 (pairs.getLastD (0, 0)).2 ∈
        (on_reconnect env
          (setQosSeq env (newChannel connection channel_number c0).1 pairs)
          fs c2 n2).trace) ∧
    (∀ pc ps, Ev.applyQos pc ps ∈
        (on_reconnect env
          (setQosSeq env (newChannel connection channel_number c0).1 pairs)
          fs c2 n2).trace →
      (pc, ps) = pairs.getLastD (0, 0)) ∧
    (∀ s2 pc ps, (set_qos env s2 pc ps false).state.qos = (pc, ps)) := by
  have hq : (setQosSeq env (newChannel connection channel_number c0).1 pairs).qos =
      pairs.getLastD (0, 0) := by
    rw [setQosSeq_qos]
    rfl
  refine ⟨hq, ?_, ?_, fun s2 pc ps => rfl⟩
  · intro h0 hopen
    rw [on_reconnect_applyQos_mem]
    refine ⟨?_, h0, hopen⟩
    rw [hq]
  · intro pc ps hmem
    have h2 := (on_reconnect_applyQos_mem env _ fs c2 n2 pc ps).mp hmem
    rw [hq] at h2
    exact h2.1

/-- Witness for C3 at a concrete input: one successful set_qos call with the
pair three four; the stored pair afterwards is the last requested pair. -/
theorem qos_persistence_witness :
    (∀ p ∈ [((3 : Nat), (4 : Nat))], envGen.setQosResult p.1 p.2 = Except.ok ()) ∧
    (setQosSeq envGen (newChannel 0 0 { store := [], nextChild := 0 }).1
        [((3 : Nat), (4 : Nat))]).qos = [((3 : Nat), (4 : Nat))].getLastD (0, 0) :=
  ⟨fun _ _ => rfl,
   (qos_persistence envGen { store := [], nextChild := 0 } 0 0 2 3
      [((3 : Nat), (4 : Nat))] [] (fun _ _ => rfl)).1⟩

/-- C6: within every single on_reconnect invocation, every initialization
event (channel open, QoS reapplication) occupies a strictly earlier trace
position than every recovery hook event; every exchange hook event occupies a
strictly earlier position than every queue hook event; and the exchange hooks
that run form exactly an order preserving initial segment of the remembered
exchange map, so each remembered exchange hook is awaited to completion
before the next one starts and before any queue hook runs. -/
theorem replay_ordering (env : Env) (s : RState) (fs : FutureStore) (c n : Nat) :
    (∀ i j : Nat,
      evIsInit (((on_reconnect env s fs c n).trace).getD i evDefault) = true →
      evIsHook (((on_reconnect env s fs c n).trace).getD j evDefault) = true →
      i < j) ∧
    (∀ i j : Nat,
      evIsExHook (((on_reconnect env s fs c n).trace).getD i evDefault) = true →
      evIsQHook (((on_reconnect env s fs c n).trace).getD j evDefault) = true →
      i < j) ∧
    (∃ k, ((on_reconnect env s fs c n).trace).filterMap exHookName =
      (exNames s).take k) := by
  have hpreNoInit : ∀ x ∈ preEvs s c n, evIsInit x = false :=
    fun x hx => (mem_preEvs s c n x hx).1
  have hpreNoHook : ∀ x ∈ preEvs s c n, evIsHook x = false :=
    fun x hx => (mem_preEvs s c n x hx).2.1
  have hpreNoEx : ∀ x ∈ preEvs s c n, exHookName x = none :=
    fun x hx => (mem_preEvs s c n x hx).2.2
  cases hopen : env.openResult with
  | error e =>
    rw [on_reconnect_open_error env s fs c n e hopen]
    dsimp only
    refine ⟨?_, ?_, 0, ?_⟩
    · intro i j _ hj
      exact (no_index_true hpreNoHook (show evIsHook evDefault = false from rfl) hj).elim
    · intro i j _ hj
      exact (no_index_true
        (fun x hx => evIsQHook_false_of_hook (hpreNoHook x hx))
        (show evIsQHook evDefault = false from rfl) hj).elim
    · rw [filterMap_none hpreNoEx]
      simp
  | ok h0 =>
    cases hq : env.setQosResult s.qos.1 s.qos.2 with
    | error e =>
      rw [on_reconnect_qos_error env s fs c n h0 e hopen hq]
      dsimp only
      have hNoHook : ∀ x ∈ preEvs s c n ++
          [Ev.openChannel, Ev.applyQos s.qos.1 s.qos.2], evIsHook x = false := by
        intro x hx
        rcases List.mem_append.mp hx with h | h
        · exact hpreNoHook x h
        · exact midNoHook _ _ x h
      refine ⟨?_, ?_, 0, ?_⟩
      · intro i j _ hj
        exact (no_index_true hNoHook (show evIsHook evDefault = false from rfl) hj).elim
      · intro i j _ hj
        exact (no_index_true
          (fun x hx => evIsQHook_false_of_hook (hNoHook x hx))
          (show evIsQHook evDefault = false from rfl) hj).elim
      · rw [List.filterMap_append, filterMap_none hpreNoEx,
          filterMap_none (midNoEx _ _)]
        simp
    | ok u =>
      cases u
      have hexmem := runHooks_trace_mem env.exchangeHook Ev.exchangeHook
      have hExNoInit : ∀ x ∈ (runHooks env.exchangeHook Ev.exchangeHook (exNames s)).2,
          evIsInit x = false := by
        intro x hx
        rcases hexmem _ x hx with ⟨m, rfl⟩
        rfl
      have hExNoQ : ∀ x ∈ (runHooks env.exchangeHook Ev.exchangeHook (exNames s)).2,
          evIsQHook x = false := by
        intro x hx
        rcases hexmem _ x hx with ⟨m, rfl⟩
        rfl
      have hxsNoHook : ∀ x ∈ preEvs s c n ++
          [Ev.openChannel, Ev.applyQos s.qos.1 s.qos.2], evIsHook x = false := by
        intro x hx
        rcases List.mem_append.mp hx with h | h
        · exact hpreNoHook x h
        · exact midNoHook _ _ x h
      cases hex : (runHooks env.exchangeHook Ev.exchangeHook (exNames s)).1 with
      | error e =>
        rw [on_reconnect_ex_error env s fs c n h0 e hopen hq hex]
        dsimp only
        refine ⟨?_, ?_, ?_⟩
        · intro i j hi hj
          exact split_index_lt evIsInit evIsHook _ _ evDefault hExNoInit rfl
            hxsNoHook rfl i j hi hj
        · intro i j _ hj
          refine (no_index_true ?_ (show evIsQHook evDefault = false from rfl) hj).elim
          intro x hx
          rcases List.mem_append.mp hx with h | h
          · exact evIsQHook_false_of_hook (hxsNoHook x h)
          · exact hExNoQ x h
        · rcases runHooks_error env.exchangeHook Ev.exchangeHook (exNames s) e hex with
            ⟨k, hk, ht, hfail, hpast⟩
          refine ⟨k + 1, ?_⟩
          rw [List.filterMap_append, List.filterMap_append,
            filterMap_none hpreNoEx, filterMap_none (midNoEx _ _), ht,
            filterMap_exHookName_map]
          simp
      | ok v =>
        cases v
        rw [on_reconnect_ex_ok env s fs c n h0 hopen hq hex]
        dsimp only
        rcases runHooks_ok env.exchangeHook Ev.exchangeHook (exNames s) hex with
          ⟨htEx, hallEx⟩
        have hqmem := runHooks_trace_mem env.queueHook Ev.queueHook
        have hQNoInit : ∀ x ∈ (runHooks env.queueHook Ev.queueHook (qNames s)).2,
            evIsInit x = false := by
          intro x hx
          rcases hqmem _ x hx with ⟨m, rfl⟩
          rfl
        have hQNoExHook : ∀ x ∈ (runHooks env.queueHook Ev.queueHook (qNames s)).2,
            evIsExHook x = false := by
          intro x hx
          rcases hqmem _ x hx with ⟨m, rfl⟩
          rfl
        have hQNoExName : ∀ x ∈ (runHooks env.queueHook Ev.queueHook (qNames s)).2,
            exHookName x = none := by
          intro x hx
          rcases hqmem _ x hx with ⟨m, rfl⟩
          rfl
        refine ⟨?_, ?_, ?_⟩
        · intro i j hi hj
          rw [List.append_assoc
            (preEvs s c n ++ [Ev.openChannel, Ev.applyQos s.qos.1 s.qos.2])] at hi hj
          refine split_index_lt evIsInit evIsHook _ _ evDefault ?_ rfl
            hxsNoHook rfl i j hi hj
          intro x hx
          rcases List.mem_append.mp hx with h | h
          · exact hExNoInit x h
          · exact hQNoInit x h
        · intro i j hi hj
          refine split_index_lt evIsExHook evIsQHook _ _ evDefault hQNoExHook rfl
            ?_ rfl i j hi hj
          intro x hx
          rcases List.mem_append.mp hx with h | h
          · exact evIsQHook_false_of_hook (hxsNoHook x h)
          · exact hExNoQ x h
        · refine ⟨(exNames s).length, ?_⟩
          rw [List.filterMap_append, List.filterMap_append, List.filterMap_append,
            filterMap_none hpreNoEx, filterMap_none (midNoEx _ _), htEx,
            filterMap_exHookName_map, filterMap_none hQNoExName]
          simp

/-- Witness for C6 at a concrete input: with one remembered exchange and one
remembered queue and a pending closing signal, the trace places the channel
open at position four before the exchange hook at position six, which in turn
precedes the queue hook at position seven. -/
theorem replay_ordering_witness :
    evIsInit (((on_reconnect envGen sDemo [] 2 3).trace).getD 4 evDefault) = true ∧
    evIsHook (((on_reconnect envGen sDemo [] 2 3).trace).getD 6 evDefault) = true ∧
    evIsExHook (((on_reconnect envGen sDemo [] 2 3).trace).getD 6 evDefault) = true ∧
    evIsQHook (((on_reconnect envGen sDemo [] 2 3).trace).getD 7 evDefault) = true ∧
    4 < 6 ∧ 6 < 7 :=
  ⟨by decide, by decide, by decide, by decide,
   (replay_ordering envGen sDemo [] 2 3).1 4 6 (by decide) (by decide),
   (replay_ordering envGen sDemo [] 2 3).2.1 6 7 (by decide) (by decide)⟩

lemma on_reconnect_trace_pre (env : Env) (s : RState) (fs : FutureStore)
    (c n : Nat) :
    ∃ post, (on_reconnect env s fs c n).trace = preEvs s c n ++ post := by
  cases hopen : env.openResult with
  | error e =>
    refine ⟨[], ?_⟩
    rw [on_reconnect_open_error env s fs c n e hopen]
    simp
  | ok h0 =>
    rcases on_reconnect_trace_success env s fs c n h0 hopen with ⟨hookEvs, -, htr⟩
    refine ⟨[Ev.openChannel, Ev.applyQos s.qos.1 s.qos.2] ++ hookEvs, ?_⟩
    rw [htr]
    simp

/-- C7: at the start of every on_reconnect invocation the current closing
signal is archived — rejected with the connection lost error whenever it was
still pending, untouched otherwise, hence never left pending — and a fresh
pending closing signal is installed; the fresh signal is allocated before the
bulk failure of pending operations and the adoption of the new connection
(only a possible rejection of the stale signal precedes those events in the
trace); and when every archived signal was resolved before the call, the same
holds after it, so at most one live closing signal (the current one) exists. -/
theorem closing_signal_swap (env : Env) (s : RState) (fs : FutureStore)
    (c n : Nat) (hlive : liveInv s) :
    ((on_reconnect env s fs c n).state).closing =
      { id := s.nextSignalId, state := SigState.pending } ∧
    ((on_reconnect env s fs c n).state).closingHistory =
      archivedSig s :: s.closingHistory ∧
    (archivedSig s).id = s.closing.id ∧
    (archivedSig s).state ≠ SigState.pending ∧
    (s.closing.state = SigState.pending →
      archivedSig s = { id := s.closing.id, state := SigState.failed reconnectExc }) ∧
    liveInv ((on_reconnect env s fs c n).state) ∧
    (∃ a b, (on_reconnect env s fs c n).trace =
      a ++ [Ev.newClosing s.nextSignalId, Ev.rejectAll s.futuresChild,
            Ev.adoptConnection c n] ++ b ∧
      ∀ x ∈ a, x = Ev.closingRejected s.closing.id) := by
  have hclosing : ((on_reconnect env s fs c n).state).closing =
      { id := s.nextSignalId, state := SigState.pending } := by
    rw [on_reconnect_state]
    cases env.openResult <;> rfl
  have hhist : ((on_reconnect env s fs c n).state).closingHistory =
      archivedSig s :: s.closingHistory := by
    rw [on_reconnect_state]
    cases env.openResult <;> rfl
  have hid : (archivedSig s).id = s.closing.id := by
    by_cases h : s.closing.state = SigState.pending <;> simp [archivedSig, h]
  have hnp : (archivedSig s).state ≠ SigState.pending := by
    by_cases h : s.closing.state = SigState.pending <;> simp [archivedSig, h]
  refine ⟨hclosing, hhist, hid, hnp, ?_, ?_, ?_⟩
  · intro h
    simp [archivedSig, h]
  · intro sig hsig
    rw [hhist] at hsig
    rcases List.mem_cons.mp hsig with rfl | hsig2
    · exact hnp
    · exact hlive sig hsig2
  · rcases on_reconnect_trace_pre env s fs c n with ⟨post, hpost⟩
    refine ⟨if s.closing.state = SigState.pending
        then [Ev.closingRejected s.closing.id] else [], post, ?_, ?_⟩
    · rw [hpost]
      rfl
    · intro x hx
      by_cases h : s.closing.state = SigState.pending
      · simp [h] at hx
        exact hx
      · simp [h] at hx

/-- Witness for C7 at a concrete input: a freshly constructed channel has no
archived closing signal, so the single live signal invariant holds before and
after a reconnect. -/
theorem closing_signal_swap_witness :
    liveInv chan0 ∧ liveInv ((on_reconnect envGen chan0 [] 2 3).state) :=
  ⟨fun sig hsig => absurd hsig (List.not_mem_nil sig),
   (closing_signal_swap envGen chan0 [] 2 3
      (fun sig hsig => absurd hsig (List.not_mem_nil sig))).2.2.2.2.2.1⟩

lemma filter_hook_none {l : List Ev} (h : ∀ x ∈ l, evIsHook x = false) :
    l.filter evIsHook = [] := by
  induction l with
  | nil => rfl
  | cons a t ih =>
    simp [List.filter_cons, h a (List.mem_cons_self a t),
      ih fun x hx => h x (List.mem_cons_of_mem a hx)]

lemma filter_hook_map (mk : String → Ev) (hmk : ∀ m, evIsHook (mk m) = true)
    (l : List String) : (l.map mk).filter evIsHook = l.map mk := by
  induction l with
  | nil => rfl
  | cons a t ih => simp [List.filter_cons, hmk a, ih]

lemma preMid_no_hook (s : RState) (c n : Nat) :
    ∀ x ∈ preEvs s c n ++ [Ev.openChannel, Ev.applyQos s.qos.1 s.qos.2],
      evIsHook x = false := by
  intro x hx
  rcases List.mem_append.mp hx with h | h
  · exact (mem_preEvs s c n x h).2.1
  · exact midNoHook _ _ x h

lemma replayOrder_length (s : RState) :
    (replayOrder s).length = (exNames s).length + (qNames s).length := by
  simp [replayOrder]

lemma replayOrder_getD_ex (s : RState) (i : Nat) (hi : i < (exNames s).length) :
    (replayOrder s).getD i entDefault = Sum.inl ((exNames s).getD i "") := by
  rw [replayOrder, List.getD_append _ _ _ _ (by rw [List.length_map]; omega)]
  simp only [entDefault]
  exact List.getD_map (exNames s) "" Sum.inl

lemma replayOrder_getD_q (s : RState) (i : Nat) (hi : i < (qNames s).length) :
    (replayOrder s).getD ((exNames s).length + i) entDefault =
      Sum.inr ((qNames s).getD i "") := by
  rw [replayOrder, List.getD_append_right _ _ _ _ (by rw [List.length_map]; omega)]
  simp only [List.length_map, Nat.add_sub_cancel_left]
  rw [List.getD_eq_getElem _ _ (by rw [List.length_map]; exact hi),
    List.getElem_map, List.getD_eq_getElem _ _ hi]

lemma replayOrder_take_ex (s : RState) (m : Nat) (hm : m ≤ (exNames s).length) :
    ((replayOrder s).take m).map hookEv = ((exNames s).take m).map Ev.exchangeHook := by
  rw [replayOrder, List.take_append_of_le_length (by rw [List.length_map]; omega),
    ← List.map_take, List.map_map]
  rfl

lemma replayOrder_take_q (s : RState) (m : Nat) :
    ((replayOrder s).take ((exNames s).length + m)).map hookEv =
      (exNames s).map Ev.exchangeHook ++ ((qNames s).take m).map Ev.queueHook := by
  rw [replayOrder,
    show (exNames s).length = ((exNames s).map Sum.inl).length from
      (List.length_map _ _).symm,
    List.take_append, List.map_append, List.map_map, ← List.map_take, List.map_map]
  rfl

/-- C8: whenever on_reconnect ends in an error, that error is exactly the
error of the failing step, unchanged — the open or QoS step (in which case no
hook ran at all), or the first failing recovery hook — and the hooks that
were invoked are exactly the replay order up to and including the failing
one: no recovery hook of any entity later in the replay order is invoked. -/
theorem reconnect_fail_fast (env : Env) (s : RState) (fs : FutureStore)
    (c n : Nat) (e : PyErr)
    (herr : (on_reconnect env s fs c n).res = Except.error e) :
    ∃ m, ((on_reconnect env s fs c n).trace).filter evIsHook =
        ((replayOrder s).take m).map hookEv ∧
      ((m = 0 ∧ (env.openResult = Except.error e ∨
          env.setQosResult s.qos.1 s.qos.2 = Except.error e)) ∨
       (∃ k, k < (replayOrder s).length ∧ m = k + 1 ∧
          hookOf env ((replayOrder s).getD k entDefault) = Except.error e ∧
          ∀ i, i < k → hookOf env ((replayOrder s).getD i entDefault) =
            Except.ok ())) := by
  cases hopen : env.openResult with
  | error e0 =>
    rw [on_reconnect_open_error env s fs c n e0 hopen] at herr ⊢
    dsimp only at herr ⊢
    injection herr with he
    subst he
    refine ⟨0, ?_, Or.inl ⟨rfl, Or.inl rfl⟩⟩
    rw [filter_hook_none fun x hx => (mem_preEvs s c n x hx).2.1]
    simp
  | ok h0 =>
    cases hq : env.setQosResult s.qos.1 s.qos.2 with
    | error e0 =>
      rw [on_reconnect_qos_error env s fs c n h0 e0 hopen hq] at herr ⊢
      dsimp only at herr ⊢
      injection herr with he
      subst he
      refine ⟨0, ?_, Or.inl ⟨rfl, Or.inr rfl⟩⟩
      rw [filter_hook_none (preMid_no_hook s c n)]
      simp
    | ok u =>
      cases u
      cases hex : (runHooks env.exchangeHook Ev.exchangeHook (exNames s)).1 with
      | error e0 =>
        rw [on_reconnect_ex_error env s fs c n h0 e0 hopen hq hex] at herr ⊢
        dsimp only at herr ⊢
        injection herr with he
        subst he
        rcases runHooks_error env.exchangeHook Ev.exchangeHook (exNames s) _ hex with
          ⟨k, hk, ht, hfail, hpast⟩
        refine ⟨k + 1, ?_, Or.inr ⟨k, ?_, rfl, ?_, ?_⟩⟩
        · simp only [List.filter_append]
          rw [filter_hook_none fun x hx => (mem_preEvs s c n x hx).2.1,
            filter_hook_none (midNoHook s.qos.1 s.qos.2), ht,
            filter_hook_map Ev.exchangeHook (fun m => rfl),
            replayOrder_take_ex s (k + 1) (by omega)]
          simp
        · rw [replayOrder_length]
          omega
        · rw [replayOrder_getD_ex s k hk]
          exact hfail
        · intro i hi
          rw [replayOrder_getD_ex s i (by omega)]
          exact hpast i hi
      | ok v =>
        cases v
        rw [on_reconnect_ex_ok env s fs c n h0 hopen hq hex] at herr ⊢
        dsimp only at herr ⊢
        rcases runHooks_ok env.exchangeHook Ev.exchangeHook (exNames s) hex with
          ⟨htEx, hallEx⟩
        rcases runHooks_error env.queueHook Ev.queueHook (qNames s) e herr with
          ⟨k, hk, ht, hfail, hpast⟩
        refine ⟨(exNames s).length + (k + 1), ?_,
          Or.inr ⟨(exNames s).length + k, ?_, by omega, ?_, ?_⟩⟩
        · simp only [List.filter_append]
          rw [filter_hook_none fun x hx => (mem_preEvs s c n x hx).2.1,
            filter_hook_none (midNoHook s.qos.1 s.qos.2), htEx, ht,
            filter_hook_map Ev.exchangeHook (fun m => rfl),
            filter_hook_map Ev.queueHook (fun m => rfl),
            replayOrder_take_q s (k + 1)]
          simp
        · rw [replayOrder_length]
          omega
        · rw [replayOrder_getD_q s k hk]
          exact hfail
        · intro i hi
          by_cases hlt : i < (exNames s).length
          · rw [replayOrder_getD_ex s i hlt]
            have hmem : (exNames s).getD i "" ∈ exNames s := by
              rw [List.getD_eq_getElem _ _ hlt]
              exact List.getElem_mem hlt
            exact hallEx _ hmem
          · push_neg at hlt
            have hj : i - (exNames s).length < k := by omega
            have hgd := replayOrder_getD_q s (i - (exNames s).length) (by omega)
            rw [show (exNames s).length + (i - (exNames s).length) = i from
              by omega] at hgd
            rw [hgd]
            exact hpast _ hj

/-- Witness for C8 at a concrete input: with one remembered exchange and one
remembered queue, an environment whose queue hooks fail with broker error
seven makes on_reconnect surface exactly that error. -/
theorem reconnect_fail_fast_witness :
    (on_reconnect envQFail sDemo [] 2 3).res = Except.error (PyErr.brokerError 7) ∧
    (∃ m, ((on_reconnect envQFail sDemo [] 2 3).trace).filter evIsHook =
        ((replayOrder sDemo).take m).map hookEv ∧
      ((m = 0 ∧ (envQFail.openResult = Except.error (PyErr.brokerError 7) ∨
          envQFail.setQosResult sDemo.qos.1 sDemo.qos.2 =
            Except.error (PyErr.brokerError 7))) ∨
       (∃ k, k < (replayOrder sDemo).length ∧ m = k + 1 ∧
          hookOf envQFail ((replayOrder sDemo).getD k entDefault) =
            Except.error (PyErr.brokerError 7) ∧
          ∀ i, i < k → hookOf envQFail ((replayOrder sDemo).getD i entDefault) =
            Except.ok ()))) :=
  ⟨rfl, reconnect_fail_fast envQFail sDemo [] 2 3 (PyErr.brokerError 7) rfl⟩

lemma reject_all_length (child : Nat) (e : PyErr) (fs : FutureStore) :
    (reject_all child e fs).length = fs.length := by
  simp [reject_all]

lemma reject_all_getD (child : Nat) (e : PyErr) (fs : FutureStore) (i : Nat)
    (hi : i < fs.length) :
    (reject_all child e fs).getD i opDummy =
      if (fs.getD i opDummy).owner = child ∧
          (fs.getD i opDummy).status = OpStatus.pending
      then { fs.getD i opDummy with status := OpStatus.rejected e }
      else fs.getD i opDummy := by
  rw [reject_all, List.getD_eq_getElem _ _ (by simpa using hi), List.getElem_map,
    List.getD_eq_getElem _ _ hi]

/-- C9: two channels constructed one after the other on the same connection
draw distinct child registries, and the bulk failure performed by
on_reconnect on channel A touches exactly the operations of the store owned
by channel A: every operation owned by channel B is left exactly as it was,
and every pending operation owned by channel A is rejected with the
connection lost error. -/
theorem bulk_rejection_scoping (c : ConnectionState) (conn numA numB c2 n2 : Nat)
    (env : Env) (fs : FutureStore) :
    ((newChannel conn numA c).1).futuresChild ≠
      ((newChannel conn numB (newChannel conn numA c).2).1).futuresChild ∧
    ((on_reconnect env (newChannel conn numA c).1 fs c2 n2).store).length =
      fs.length ∧
    (∀ i : Nat,
      ((fs.getD i opDummy).owner =
          ((newChannel conn numB (newChannel conn numA c).2).1).futuresChild →
        ((on_reconnect env (newChannel conn numA c).1 fs c2 n2).store).getD i opDummy =
          fs.getD i opDummy) ∧
      ((fs.getD i opDummy).owner = ((newChannel conn numA c).1).futuresChild ∧
          (fs.getD i opDummy).status = OpStatus.pending →
        ((on_reconnect env (newChannel conn numA c).1 fs c2 n2).store).getD i opDummy =
          { fs.getD i opDummy with status := OpStatus.rejected reconnectExc })) := by
  refine ⟨?_, ?_, ?_⟩
  · show c.nextChild ≠ c.nextChild + 1
    omega
  · rw [on_reconnect_store, reject_all_length]
  · intro i
    rw [on_reconnect_store]
    rcases Nat.lt_or_ge i fs.length with hi | hi
    · rw [reject_all_getD _ _ _ i hi]
      constructor
      · intro hB
        have hne : ¬((fs.getD i opDummy).owner =
            ((newChannel conn numA c).1).futuresChild ∧
            (fs.getD i opDummy).status = OpStatus.pending) := by
          rintro ⟨h1, -⟩
          have e12 : c.nextChild = c.nextChild + 1 := h1.symm.trans hB
          omega
        rw [if_neg hne]
      · rintro ⟨hA, hp⟩
        rw [if_pos ⟨hA, hp⟩]
    · have h1 : (reject_all ((newChannel conn numA c).1).futuresChild reconnectExc
          fs).getD i opDummy = opDummy :=
        List.getD_eq_default _ _ (by rw [reject_all_length]; omega)
      have h2 : fs.getD i opDummy = opDummy := List.getD_eq_default _ _ hi
      rw [h1, h2]
      constructor
      · intro _
        rfl
      · rintro ⟨-, hp⟩
        simp [opDummy] at hp

/-- Witness for C9 at a concrete input: with a store holding one pending
operation of child zero (channel A) and one of child one (channel B),
reconnecting channel A leaves the operation of channel B untouched. -/
theorem bulk_rejection_scoping_witness :
    (fsDemo.getD 1 opDummy).owner =
      ((newChannel 5 7 (newChannel 5 6 { store := [], nextChild := 0 }).2).1).futuresChild ∧
    ((on_reconnect envGen (newChannel 5 6 { store := [], nextChild := 0 }).1
        fsDemo 2 3).store).getD 1 opDummy = fsDemo.getD 1 opDummy :=
  ⟨rfl,
   ((bulk_rejection_scoping { store := [], nextChild := 0 } 5 6 7 2 3
      envGen fsDemo).2.2 1).1 rfl⟩

/-- C10: on_reconnect never consults the closed flag — with the flag set it
returns the same result, leaves the same store, performs the same trace
(rejecting the stale closing signal, bulk failing pending operations,
adopting the new connection, re-opening, reapplying QoS and replaying all
remembered entities) and produces the same state as with the flag clear,
except that the closed flag itself remains set throughout. -/
theorem reconnect_ignores_closed (env : Env) (s : RState) (fs : FutureStore)
    (c n : Nat) :
    (on_reconnect env { s with closed := true } fs c n).res =
      (on_reconnect env { s with closed := false } fs c n).res ∧
    (on_reconnect env { s with closed := true } fs c n).store =
      (on_reconnect env { s with closed := false } fs c n).store ∧
    (on_reconnect env { s with closed := true } fs c n).trace =
      (on_reconnect env { s with closed := false } fs c n).trace ∧
    (on_reconnect env { s with closed := true } fs c n).state =
      { (on_reconnect env { s with closed := false } fs c n).state with
          closed := true } ∧
    ((on_reconnect env { s with closed := true } fs c n).state).closed = true := by
  cases hopen : env.openResult with
  | error e =>
    rw [on_reconnect_open_error env { s with closed := true } fs c n e hopen,
      on_reconnect_open_error env { s with closed := false } fs c n e hopen]
    exact ⟨rfl, rfl, rfl, rfl, rfl⟩
  | ok h0 =>
    cases hq : env.setQosResult s.qos.1 s.qos.2 with
    | error e =>
      rw [on_reconnect_qos_error env { s with closed := true } fs c n h0 e hopen hq,
        on_reconnect_qos_error env { s with closed := false } fs c n h0 e hopen hq]
      exact ⟨rfl, rfl, rfl, rfl, rfl⟩
    | ok u =>
      cases u
      cases hex : (runHooks env.exchangeHook Ev.exchangeHook (exNames s)).1 with
      | error e =>
        rw [on_reconnect_ex_error env { s with closed := true } fs c n h0 e hopen hq
            hex,
          on_reconnect_ex_error env { s with closed := false } fs c n h0 e hopen hq
            hex]
        exact ⟨rfl, rfl, rfl, rfl, rfl⟩
      | ok v =>
        cases v
        rw [on_reconnect_ex_ok env { s with closed := true } fs c n h0 hopen hq hex,
          on_reconnect_ex_ok env { s with closed := false } fs c n h0 hopen hq hex]
        exact ⟨rfl, rfl, rfl, rfl, rfl⟩

end AioPika
